import Mathlib

/-!
Verification of the embeddings-example notebook: the image encoder
(`image_to_base64`), the similarity scorer (`cosine_similarity`) and the
response-consumption step. Vectors are modelled over exact rationals (the
notebook uses machine floats); base64 is the standard padded encoding used by
the Python standard library; the PNG codec lives in the external imaging
library and is modelled from the spec as a lossless serializer.
-/

namespace VLMEmbeddings

/-- Modelled from the spec: an in-memory decoded raster image
(width × height × channel data) as produced by the external imaging
library; the channel data is a flat list of bytes. -/
structure Image where
  width : Nat
  height : Nat
  pixels : List Nat
  deriving DecidableEq, Repr

/-- A decoded image the external imaging library can serialize: dimensions fit
in 32 bits and every channel sample is a byte. -/
def validImage (I : Image) : Prop :=
  I.width < 4294967296 ∧ I.height < 4294967296 ∧ ∀ p ∈ I.pixels, p < 256

instance (I : Image) : Decidable (validImage I) := by
  unfold validImage; infer_instance

/-- Big-endian 4-byte encoding of a natural number. -/
def natTo4Bytes (n : Nat) : List Nat :=
  [n / 16777216 % 256, n / 65536 % 256, n / 256 % 256, n % 256]

/-- Modelled from the spec: the external imaging library re-serializes the
decoded image as PNG into an in-memory byte buffer; the codec itself is not
part of this repository, so a concrete lossless serialization (big-endian
dimensions followed by the raw channel data) stands in for it. -/
def pngSerialize (I : Image) : List Nat :=
  natTo4Bytes I.width ++ natTo4Bytes I.height ++ I.pixels

/-- Modelled from the spec: parsing the serialized PNG bytes back into a
decoded raster image, the inverse direction of `pngSerialize`. -/
def pngParse : List Nat → Option Image
  | w1 :: w2 :: w3 :: w4 :: h1 :: h2 :: h3 :: h4 :: px =>
      some ⟨w1 * 16777216 + w2 * 65536 + w3 * 256 + w4,
            h1 * 16777216 + h2 * 65536 + h3 * 256 + h4, px⟩
  | _ => none

/-- The standard base64 alphabet (RFC 4648), as used by `base64.b64encode`. -/
def b64Alphabet : List Char :=
  "ABCDEFGHIJKLMNOPQRSTUVWXYZabcdefghijklmnopqrstuvwxyz0123456789+/".toList

/-- The character encoding a 6-bit group. -/
def b64Char (n : Nat) : Char := b64Alphabet.getD n '?'

/-- The 6-bit value of an alphabet character. -/
def b64Index (c : Char) : Nat := b64Alphabet.indexOf c

/-- Regroup a byte stream into 6-bit groups, three bytes to four sextets,
with the final partial group zero-padded on the right. -/
def bytesToSextets : List Nat → List Nat
  | [] => []
  | [b1] => [b1 / 4, b1 % 4 * 16]
  | [b1, b2] => [b1 / 4, b1 % 4 * 16 + b2 / 16, b2 % 16 * 4]
  | b1 :: b2 :: b3 :: rest =>
      b1 / 4 :: (b1 % 4 * 16 + b2 / 16) :: (b2 % 16 * 4 + b3 / 64) :: b3 % 64 ::
        bytesToSextets rest

/-- Number of padding characters appended for a payload of `n` bytes:
two for a final single byte, one for a final pair, zero otherwise. -/
def b64PadLength (n : Nat) : Nat := (3 - n % 3) % 3

/-- Standard padded base64 encoding of a byte list (RFC 4648, as implemented
by the Python standard library). -/
def b64Encode (bytes : List Nat) : List Char :=
  (bytesToSextets bytes).map b64Char ++
    List.replicate (b64PadLength bytes.length) '='

/-- Regroup 6-bit groups back into bytes, four sextets to three bytes. -/
def sextetsToBytes : List Nat → List Nat
  | [s1, s2] => [s1 * 4 + s2 / 16]
  | [s1, s2, s3] => [s1 * 4 + s2 / 16, s2 % 16 * 16 + s3 / 4]
  | s1 :: s2 :: s3 :: s4 :: rest =>
      (s1 * 4 + s2 / 16) :: (s2 % 16 * 16 + s3 / 4) :: (s3 % 4 * 64 + s4) ::
        sextetsToBytes rest
  | _ => []

/-- Standard base64 decoding: drop padding, map characters to their 6-bit
values, regroup into bytes. -/
def b64Decode (chars : List Char) : List Nat :=
  sextetsToBytes ((chars.filter (fun c => c ≠ '=')).map b64Index)

/-- The MIME type tag fixed by the notebook. -/
def mime_type : String := "image/png"

/-- The image encoder of the notebook: serialize the image as PNG into an
in-memory buffer, base64-encode the bytes and prepend the data-URI header. -/
def image_to_base64 (image : Image) : String :=
  "data:" ++ mime_type ++ ";base64," ++
    String.mk (b64Encode (pngSerialize image))

/-- The error taxonomy of the scorer: the spec names the length-mismatch
failure DimensionMismatchError. -/
inductive ScoreError where
  | dimensionMismatchError : ScoreError
  deriving DecidableEq, Repr

/-- Elementwise dot product of two lists, as `np.dot` computes it on
one-dimensional arrays of equal length. -/
def dotList : List ℚ → List ℚ → ℚ
  | a :: as, b :: bs => a * b + dotList as bs
  | _, _ => 0

/-- The scorer of the notebook: `np.dot` on the two vectors, which fails
(DimensionMismatchError in the taxonomy of the spec) when the lengths
differ and returns the dot product otherwise. -/
def cosine_similarity (a b : List ℚ) : Except ScoreError ℚ :=
  if a.length = b.length then Except.ok (dotList a b)
  else Except.error ScoreError.dimensionMismatchError

/-- Sum of the squared components of a vector (the squared L2 norm). -/
def sumSq (v : List ℚ) : ℚ := (v.map fun x => x * x).sum

/-- One result object of the embeddings response: at least the `embedding`
field, an ordered sequence of numbers. -/
structure EmbeddingObject where
  embedding : List ℚ

/-- The embeddings response body: an array of result objects. -/
structure EmbeddingsResponse where
  data : List EmbeddingObject

/-- The consumption step of the flow: the notebook reads
`response.data[0].embedding`, which fails on an empty result list. -/
def consumedEmbedding (resp : EmbeddingsResponse) : Option (List ℚ) :=
  (resp.data.get? 0).map EmbeddingObject.embedding

/-! ### Supporting lemmas -/

theorem dotList_comm (a : List ℚ) : ∀ b : List ℚ, dotList a b = dotList b a := by
  induction a with
  | nil => intro b; cases b <;> rfl
  | cons x xs ih =>
      intro b
      cases b with
      | nil => rfl
      | cons y ys => simp only [dotList, ih ys, mul_comm]

theorem dotList_eq_sum (a : List ℚ) : ∀ b : List ℚ,
    dotList a b = ∑ i ∈ Finset.range (min a.length b.length),
      a.getD i 0 * b.getD i 0 := by
  induction a with
  | nil => intro b; simp [dotList]
  | cons x xs ih =>
      intro b
      cases b with
      | nil => simp [dotList]
      | cons y ys =>
          have hmin : min (x :: xs).length (y :: ys).length =
              min xs.length ys.length + 1 := by
            simp only [List.length_cons]
            omega
          rw [dotList, hmin, Finset.sum_range_succ']
          simp only [List.getD_cons_succ, List.getD_cons_zero]
          rw [ih ys]
          ring

theorem sumSq_eq_dotList (v : List ℚ) : sumSq v = dotList v v := by
  induction v with
  | nil => rfl
  | cons x xs ih =>
      simp only [sumSq, List.map_cons, List.sum_cons, dotList] at ih ⊢
      rw [ih]

theorem dotList_smul_left (c : ℚ) (a : List ℚ) : ∀ b : List ℚ,
    dotList (a.map fun x => c * x) b = c * dotList a b := by
  induction a with
  | nil => intro b; cases b <;> simp [dotList]
  | cons x xs ih =>
      intro b
      cases b with
      | nil => simp [dotList]
      | cons y ys =>
          simp only [List.map_cons, dotList, ih ys]
          ring

theorem sextetsToBytes_bytesToSextets (l : List Nat) (h : ∀ b ∈ l, b < 256) :
    sextetsToBytes (bytesToSextets l) = l := by
  induction l using bytesToSextets.induct with
  | case1 => rfl
  | case2 b1 =>
      have hb1 : b1 < 256 := h b1 (by simp)
      simp [bytesToSextets, sextetsToBytes]
      omega
  | case3 b1 b2 =>
      have hb1 : b1 < 256 := h b1 (by simp)
      have hb2 : b2 < 256 := h b2 (by simp)
      simp [bytesToSextets, sextetsToBytes]
      omega
  | case4 b1 b2 b3 rest ih =>
      have hb1 : b1 < 256 := h b1 (by simp)
      have hb2 : b2 < 256 := h b2 (by simp)
      have hb3 : b3 < 256 := h b3 (by simp)
      have ih2 : sextetsToBytes (bytesToSextets rest) = rest :=
        ih (fun b hb => h b (by simp [hb]))
      simp only [bytesToSextets, sextetsToBytes, ih2, List.cons.injEq]
      refine ⟨by omega, by omega, by omega, trivial⟩

theorem bytesToSextets_lt (l : List Nat) (h : ∀ b ∈ l, b < 256) :
    ∀ s ∈ bytesToSextets l, s < 64 := by
  induction l using bytesToSextets.induct with
  | case1 => simp [bytesToSextets]
  | case2 b1 =>
      have hb1 : b1 < 256 := h b1 (by simp)
      simp [bytesToSextets]
      omega
  | case3 b1 b2 =>
      have hb1 : b1 < 256 := h b1 (by simp)
      have hb2 : b2 < 256 := h b2 (by simp)
      simp [bytesToSextets]
      omega
  | case4 b1 b2 b3 rest ih =>
      have hb1 : b1 < 256 := h b1 (by simp)
      have hb2 : b2 < 256 := h b2 (by simp)
      have hb3 : b3 < 256 := h b3 (by simp)
      have ih2 := ih (fun b hb => h b (by simp [hb]))
      simp only [bytesToSextets, List.mem_cons]
      rintro s (rfl | rfl | rfl | rfl | hs)
      · omega
      · omega
      · omega
      · omega
      · exact ih2 s hs

theorem b64Index_b64Char : ∀ s < 64, b64Index (b64Char s) = s := by decide

theorem b64Char_ne_pad : ∀ s < 64, b64Char s ≠ '=' := by decide

theorem filter_pad_replicate (n : Nat) :
    (List.replicate n '=').filter (fun c => c ≠ '=') = [] := by
  induction n with
  | zero => rfl
  | succ k ih => simp [List.replicate, List.filter, ih]

theorem map_b64Index_map_b64Char (s : List Nat) (h : ∀ x ∈ s, x < 64) :
    (s.map b64Char).map b64Index = s := by
  induction s with
  | nil => rfl
  | cons x xs ih =>
      simp only [List.map_cons, List.cons.injEq]
      exact ⟨b64Index_b64Char x (h x (by simp)),
        ih (fun y hy => h y (by simp [hy]))⟩

theorem b64Decode_b64Encode (l : List Nat) (h : ∀ b ∈ l, b < 256) :
    b64Decode (b64Encode l) = l := by
  unfold b64Decode b64Encode
  rw [List.filter_append, filter_pad_replicate, List.append_nil]
  have hfil : (List.map b64Char (bytesToSextets l)).filter (fun c => c ≠ '=') =
      List.map b64Char (bytesToSextets l) := by
    apply List.filter_eq_self.mpr
    intro c hc
    obtain ⟨s, hs, rfl⟩ := List.mem_map.mp hc
    exact decide_eq_true (b64Char_ne_pad s (bytesToSextets_lt l h s hs))
  rw [hfil, map_b64Index_map_b64Char _ (bytesToSextets_lt l h),
    sextetsToBytes_bytesToSextets l h]

theorem pngSerialize_lt (I : Image) (h : validImage I) :
    ∀ b ∈ pngSerialize I, b < 256 := by
  rcases h with ⟨h1, h2, h3⟩
  intro b hb
  simp only [pngSerialize, natTo4Bytes, List.append_assoc, List.cons_append,
    List.nil_append, List.mem_cons] at hb
  rcases hb with rfl | rfl | rfl | rfl | rfl | rfl | rfl | rfl | hb
  · omega
  · omega
  · omega
  · omega
  · omega
  · omega
  · omega
  · omega
  · exact h3 b hb

theorem pngParse_pngSerialize (I : Image) (h : validImage I) :
    pngParse (pngSerialize I) = some I := by
  obtain ⟨w, ht, px⟩ := I
  obtain ⟨h1, h2, h3⟩ := h
  have hw : w < 4294967296 := h1
  have hh : ht < 4294967296 := h2
  simp only [pngSerialize, natTo4Bytes, List.append_assoc, List.cons_append,
    List.nil_append, pngParse, Option.some.injEq, Image.mk.injEq]
  refine ⟨by omega, by omega, trivial⟩

theorem image_to_base64_toList (I : Image) :
    (image_to_base64 I).toList =
      "data:image/png;base64,".toList ++ b64Encode (pngSerialize I) := by
  simp [image_to_base64, mime_type, String.toList]

theorem b64Encode_length_mod (l : List Nat) :
    (b64Encode l).length % 4 = 0 := by
  unfold b64Encode
  rw [List.length_append, List.length_map, List.length_replicate]
  induction l using bytesToSextets.induct with
  | case1 => rfl
  | case2 b1 => simp [bytesToSextets, b64PadLength]
  | case3 b1 b2 => simp [bytesToSextets, b64PadLength]
  | case4 b1 b2 b3 rest ih =>
      simp only [bytesToSextets, List.length_cons] at ih ⊢
      unfold b64PadLength at ih ⊢
      omega

/-! ### Claim theorems -/

/-- C1: for every pair of vectors a and b of equal length n, the scorer
returns the dot product, the sum over indices i below n of a[i] * b[i]. -/
theorem cosine_similarity_dot_product (a b : List ℚ) (h : a.length = b.length) :
    cosine_similarity a b =
      Except.ok (∑ i ∈ Finset.range a.length, a.getD i 0 * b.getD i 0) := by
  unfold cosine_similarity
  rw [if_pos h, dotList_eq_sum, h, min_self]

/-- Witness for C1 at a = [1, 2], b = [3, 4]. -/
theorem cosine_similarity_dot_product_witness :
    cosine_similarity [1, 2] [3, 4] =
      Except.ok (∑ i ∈ Finset.range 2,
        ([1, 2] : List ℚ).getD i 0 * ([3, 4] : List ℚ).getD i 0) :=
  cosine_similarity_dot_product [1, 2] [3, 4] rfl

/-- C2: for every pair of vectors whose lengths differ, the scorer fails with
the DimensionMismatchError of the spec's taxonomy instead of returning a
value. -/
theorem cosine_similarity_length_mismatch (a b : List ℚ)
    (h : a.length ≠ b.length) :
    cosine_similarity a b = Except.error ScoreError.dimensionMismatchError := by
  unfold cosine_similarity
  rw [if_neg h]

/-- Witness for C2 at a = [1], b = []. -/
theorem cosine_similarity_length_mismatch_witness :
    cosine_similarity [1] [] = Except.error ScoreError.dimensionMismatchError :=
  cosine_similarity_length_mismatch [1] [] (by decide)

/-- C3: for every valid decoded image, stripping the 22-character data-URI
header from the encoder's output, base64-decoding the remaining payload and
parsing the bytes as PNG reproduces the image exactly. -/
theorem image_to_base64_roundtrip (I : Image) (h : validImage I) :
    pngParse (b64Decode ((image_to_base64 I).toList.drop 22)) = some I := by
  have hdrop : (image_to_base64 I).toList.drop 22 = b64Encode (pngSerialize I) := by
    rw [image_to_base64_toList]
    rfl
  rw [hdrop, b64Decode_b64Encode _ (pngSerialize_lt I h),
    pngParse_pngSerialize I h]

/-- Witness for C3 at the one-pixel image ⟨1, 1, [7]⟩. -/
theorem image_to_base64_roundtrip_witness :
    pngParse (b64Decode ((image_to_base64 ⟨1, 1, [7]⟩).toList.drop 22)) =
      some ⟨1, 1, [7]⟩ :=
  image_to_base64_roundtrip ⟨1, 1, [7]⟩ (by decide)

/-- C4: the encoder's output always starts with the literal header
data:image/png;base64, and the remainder is the standard padded base64
encoding of the PNG serialization (in particular its length is a multiple
of four). -/
theorem image_to_base64_format (I : Image) :
    (image_to_base64 I).toList =
      "data:image/png;base64,".toList ++ b64Encode (pngSerialize I) ∧
    (b64Encode (pngSerialize I)).length % 4 = 0 :=
  ⟨image_to_base64_toList I, b64Encode_length_mod (pngSerialize I)⟩

/-- C5: for every vector v whose sum of squared components is 1 (unit L2
norm), the scorer applied to v and itself returns exactly 1. -/
theorem cosine_similarity_unit_self (v : List ℚ) (h : sumSq v = 1) :
    cosine_similarity v v = Except.ok 1 := by
  unfold cosine_similarity
  rw [if_pos rfl, ← sumSq_eq_dotList, h]

/-- Witness for C5 at v = [1]. -/
theorem cosine_similarity_unit_self_witness :
    cosine_similarity [1] [1] = Except.ok 1 :=
  cosine_similarity_unit_self [1] (by simp [sumSq])

/-- C6: for all equal-length vectors a and b, the scorer is symmetric in its
two arguments. -/
theorem cosine_similarity_symm (a b : List ℚ) (h : a.length = b.length) :
    cosine_similarity a b = cosine_similarity b a := by
  unfold cosine_similarity
  rw [if_pos h, if_pos h.symm, dotList_comm]

/-- Witness for C6 at a = [1, 2], b = [3, 4]. -/
theorem cosine_similarity_symm_witness :
    cosine_similarity [1, 2] [3, 4] = cosine_similarity [3, 4] [1, 2] :=
  cosine_similarity_symm [1, 2] [3, 4] rfl

/-- C7: for every pair of equal-length vectors that both have unit L2 norm,
the scorer's result lies in the interval from -1 to 1 (Cauchy-Schwarz). -/
theorem cosine_similarity_unit_bounds (a b : List ℚ) (h : a.length = b.length)
    (ha : sumSq a = 1) (hb : sumSq b = 1) (r : ℚ)
    (hr : cosine_similarity a b = Except.ok r) : -1 ≤ r ∧ r ≤ 1 := by
  have hrd : r = dotList a b := by
    unfold cosine_similarity at hr
    rw [if_pos h] at hr
    exact (Except.ok.inj hr).symm
  have e1 : dotList a b =
      ∑ i ∈ Finset.range b.length, a.getD i 0 * b.getD i 0 := by
    rw [dotList_eq_sum, h, min_self]
  have e2 : ∑ i ∈ Finset.range b.length, a.getD i 0 ^ 2 = 1 := by
    have := sumSq_eq_dotList a
    rw [dotList_eq_sum, min_self, ha] at this
    rw [h] at this
    simp only [pow_two]
    exact this.symm
  have e3 : ∑ i ∈ Finset.range b.length, b.getD i 0 ^ 2 = 1 := by
    have := sumSq_eq_dotList b
    rw [dotList_eq_sum, min_self, hb] at this
    simp only [pow_two]
    exact this.symm
  have cs := Finset.sum_mul_sq_le_sq_mul_sq (Finset.range b.length)
    (fun i => a.getD i 0) (fun i => b.getD i 0)
  rw [e2, e3, one_mul, ← e1, ← hrd] at cs
  exact abs_le.mp ((sq_le_one_iff_abs_le_one r).mp cs)

/-- Witness for C7 at a = [1, 0], b = [0, 1], where the score is 0. -/
theorem cosine_similarity_unit_bounds_witness :
    (-1 : ℚ) ≤ 0 ∧ (0 : ℚ) ≤ 1 :=
  cosine_similarity_unit_bounds [1, 0] [0, 1] rfl (by simp [sumSq])
    (by simp [sumSq]) 0 (by simp [cosine_similarity, dotList])

/-- C8: whenever the result list of the embeddings response is non-empty, the
flow consumes exactly the embedding field of its first element, whatever the
remaining elements are. -/
theorem consumedEmbedding_first (d : EmbeddingObject)
    (rest : List EmbeddingObject) :
    consumedEmbedding ⟨d :: rest⟩ = some d.embedding := rfl

/-- C9: on two empty vectors the scorer raises no error and returns the empty
sum 0: the empty pair satisfies the equal-length precondition. -/
theorem cosine_similarity_empty :
    cosine_similarity [] [] = Except.ok 0 := rfl

/-- C10: the scorer is homogeneous in its first argument: scaling one input
by c scales the reported score by c, so no normalization is performed. -/
theorem cosine_similarity_homogeneous (c : ℚ) (a b : List ℚ)
    (h : a.length = b.length) (r : ℚ)
    (hr : cosine_similarity a b = Except.ok r) :
    cosine_similarity (a.map fun x => c * x) b = Except.ok (c * r) := by
  have hrd : r = dotList a b := by
    unfold cosine_similarity at hr
    rw [if_pos h] at hr
    exact (Except.ok.inj hr).symm
  have hl : (a.map fun x => c * x).length = b.length := by
    rw [List.length_map, h]
  unfold cosine_similarity
  rw [if_pos hl, dotList_smul_left, hrd]

/-- Witness for C10 at c = 2, a = [1], b = [3]. -/
theorem cosine_similarity_homogeneous_witness :
    cosine_similarity (([1] : List ℚ).map fun x => 2 * x) [3] =
      Except.ok (2 * 3) :=
  cosine_similarity_homogeneous 2 [1] [3] rfl 3
    (by simp [cosine_similarity, dotList])

end VLMEmbeddings
